import Mathlib

/-
Verification of the elevenlabs-utilities conversation pipeline.

This file shallowly embeds the pure data-transformation core of the
repository: the agent-group classifier (appcode/helpers/agent_group_selector.py),
the time helpers (appcode/helpers/time_helpers.py), the agent catalog
(appcode/connections/agent_connection.py), the conversation aggregator
(appcode/connections/conversation_connection.py), the dynamic-variable
enrichment step (appcode/processors/downloaders/conversation_downloader.py)
and the bulk data-collection updater
(appcode/processors/updaters/data_collection_updater.py).

Python dictionaries are embedded as association lists in insertion order
(`List (k × v)`): item assignment updates the first matching key in place
or appends a fresh entry at the end, exactly as Python dicts preserve
insertion order.  Subscript reads that may raise KeyError are embedded as
`Option`-returning lookups.  Remote HTTP responses are passed in as data
(lists of pages, detail records), since the network client is out of scope.
-/

set_option maxRecDepth 10000

namespace EL

/-! ## Association-list embedding of Python dict -/

def dictLookup {α β : Type} [DecidableEq α] (k : α) : List (α × β) → Option β
  | [] => none
  | (k0, v0) :: rest => if k0 = k then some v0 else dictLookup k rest

def dictSet {α β : Type} [DecidableEq α] (k : α) (v : β) : List (α × β) → List (α × β)
  | [] => [(k, v)]
  | (k0, v0) :: rest => if k0 = k then (k0, v) :: rest else (k0, v0) :: dictSet k v rest

def dictPop {α β : Type} [DecidableEq α] (k : α) : List (α × β) → List (α × β)
  | [] => []
  | (k0, v0) :: rest => if k0 = k then rest else (k0, v0) :: dictPop k rest

def dictAppendAt {α γ : Type} [DecidableEq α] (k : α) (x : γ) :
    List (α × List γ) → List (α × List γ)
  | [] => []
  | (k0, v0) :: rest =>
    if k0 = k then (k0, v0 ++ [x]) :: rest else (k0, v0) :: dictAppendAt k x rest

def dictKeys {α β : Type} (d : List (α × β)) : List α := d.map Prod.fst

theorem dictLookup_set_self {α β : Type} [DecidableEq α] (k : α) (v : β)
    (d : List (α × β)) : dictLookup k (dictSet k v d) = some v := by
  induction d with
  | nil => simp [dictSet, dictLookup]
  | cons hd tl ih =>
    obtain ⟨k0, v0⟩ := hd
    by_cases h : k0 = k <;> simp [dictSet, dictLookup, h, ih]

theorem dictLookup_set_ne {α β : Type} [DecidableEq α] (k k' : α) (v : β)
    (d : List (α × β)) (h : k' ≠ k) :
    dictLookup k' (dictSet k v d) = dictLookup k' d := by
  induction d with
  | nil => simp [dictSet, dictLookup, Ne.symm h]
  | cons hd tl ih =>
    obtain ⟨k0, v0⟩ := hd
    simp only [dictSet]
    by_cases h0 : k0 = k
    · rw [if_pos h0]
      subst h0
      simp [dictLookup, Ne.symm h]
    · rw [if_neg h0]
      simp only [dictLookup]
      by_cases h1 : k0 = k' <;> simp [h1, ih]

theorem dictLookup_appendAt_isSome {α γ : Type} [DecidableEq α] (k k' : α) (x : γ)
    (d : List (α × List γ)) :
    (dictLookup k' (dictAppendAt k x d)).isSome = (dictLookup k' d).isSome := by
  induction d with
  | nil => simp [dictAppendAt]
  | cons hd tl ih =>
    obtain ⟨k0, v0⟩ := hd
    simp only [dictAppendAt]
    by_cases h0 : k0 = k
    · rw [if_pos h0]
      simp only [dictLookup]
      by_cases h1 : k0 = k' <;> simp [h1]
    · rw [if_neg h0]
      simp only [dictLookup]
      by_cases h1 : k0 = k' <;> simp [h1, ih]

/-- A fold over any list preserves any invariant preserved by each step. -/
theorem foldl_preserve {δ γ : Type} (P : δ → Prop) (f : δ → γ → δ)
    (l : List γ) (d : δ) (h0 : P d) (hstep : ∀ d x, P d → P (f d x)) :
    P (l.foldl f d) := by
  induction l generalizing d with
  | nil => exact h0
  | cons hd tl ih => exact ih (f d hd) (hstep d hd h0)

/-! ## appcode/common/enums.py -/

/-- Embeds enum `AgentGroup` (appcode/common/enums.py). -/
inductive AgentGroup : Type
  | ELENA
  | ELENA_AFFA
  | ELENA_NOAFFA
  | ELENA_BANNER
  | MARIA
  | ARTESAN
  | COACH
  | OTHER
deriving DecidableEq, Repr

/-- The `.value` string of each `AgentGroup` member. -/
def AgentGroup.value : AgentGroup → String
  | .ELENA => "Elena"
  | .ELENA_AFFA => "Elena AFFA"
  | .ELENA_NOAFFA => "Elena NOAFFA"
  | .ELENA_BANNER => "Elena Banner"
  | .MARIA => "María"
  | .ARTESAN => "Artesan"
  | .COACH => "Coach"
  | .OTHER => "Other"

/-- Iteration order of `for group in AgentGroup`: definition order. -/
def AgentGroup.all : List AgentGroup :=
  [.ELENA, .ELENA_AFFA, .ELENA_NOAFFA, .ELENA_BANNER, .MARIA, .ARTESAN, .COACH, .OTHER]

/-- Embeds enum `VariableType` (appcode/common/enums.py). -/
inductive VariableType : Type
  | STRING
  | BOOLEAN
  | FLOAT
  | INTEGER
deriving DecidableEq, Repr

def VariableType.value : VariableType → String
  | .STRING => "string"
  | .BOOLEAN => "boolean"
  | .FLOAT => "number"
  | .INTEGER => "integer"

/-! ## appcode/helpers/agent_group_selector.py -/

/-- One character of Python `str.lower()`: ASCII letters plus the Latin-1
uppercase letters (bringing accented names such as MARÍA to maría). -/
def pyCharLower (c : Char) : Char :=
  if (65 ≤ c.toNat ∧ c.toNat ≤ 90) ∨ (192 ≤ c.toNat ∧ c.toNat ≤ 222 ∧ c.toNat ≠ 215) then
    Char.ofNat (c.toNat + 32)
  else c

/-- Python `str.lower()` on the character range used by the agent names. -/
def pyLower (s : String) : String := ⟨s.toList.map pyCharLower⟩

/-- Substring test on character lists, used to embed Python `sub in s`. -/
def listHasSub (sub : List Char) : List Char → Bool
  | [] => sub.isEmpty
  | c :: cs => sub.isPrefixOf (c :: cs) || listHasSub sub cs

/-- Python `sub in s` (substring containment). -/
def pyIn (sub s : String) : Bool := listHasSub sub.toList s.toList

/-- Embeds `generate_dictionary_keys` (agent_group_selector.py, lines 25-53):
one empty-list entry per `AgentGroup` member, in enum order. -/
def generate_dictionary_keys : List (String × List String) :=
  AgentGroup.all.foldl (fun d g => dictSet g.value [] d) []

/-- Embeds `get_agent_groups` (agent_group_selector.py, lines 56-106). -/
def get_agent_groups (agent_name : String) : List AgentGroup :=
  let name := pyLower agent_name
  if pyIn "elena" name then
    [AgentGroup.ELENA]
      ++ (if pyIn "affa" name && !(pyIn "noaffa" name) then [AgentGroup.ELENA_AFFA] else [])
      ++ (if pyIn "noaffa" name then [AgentGroup.ELENA_NOAFFA] else [])
      ++ (if pyIn "banner" name then [AgentGroup.ELENA_BANNER] else [])
  else if pyIn "maría" name || pyIn "maria" name then [AgentGroup.MARIA]
  else if pyIn "coach" name then [AgentGroup.COACH]
  else if pyIn "artesan" name then [AgentGroup.ARTESAN]
  else [AgentGroup.OTHER]

/-- Embeds `get_agent_groups_as_strings` (agent_group_selector.py, lines 109-133). -/
def get_agent_groups_as_strings (agent_name : String) : List String :=
  (get_agent_groups agent_name).foldl (fun acc g => acc ++ [g.value]) []

example : get_agent_groups "Elena_AFFA" = [AgentGroup.ELENA, AgentGroup.ELENA_AFFA] := by decide
example : get_agent_groups_as_strings "Elena_Banner" = ["Elena", "Elena Banner"] := by decide
example : get_agent_groups "MARÍA 2" = [AgentGroup.MARIA] := by decide
example : get_agent_groups "" = [AgentGroup.OTHER] := by decide

/-- A prefix hit at any position yields substring containment. -/
theorem listHasSub_of_isPrefixOf (sub t : List Char) (h : sub.isPrefixOf t = true) :
    listHasSub sub t = true := by
  cases t with
  | nil =>
    cases sub with
    | nil => rfl
    | cons c cs => simp [List.isPrefixOf] at h
  | cons c cs => simp [listHasSub, h]

theorem listHasSub_cons (sub : List Char) (c : Char) (cs : List Char)
    (h : listHasSub sub cs = true) : listHasSub sub (c :: cs) = true := by
  simp [listHasSub, h]

theorem listHasSub_affa_of_noaffa (l : List Char) :
    listHasSub ['n', 'o', 'a', 'f', 'f', 'a'] l = true →
    listHasSub ['a', 'f', 'f', 'a'] l = true := by
  induction l with
  | nil => intro h; simp [listHasSub] at h
  | cons c cs ih =>
    intro h
    simp only [listHasSub, Bool.or_eq_true] at h
    rcases h with h | h
    · -- the full "noaffa" is a prefix here, so "affa" starts two positions later
      cases cs with
      | nil => simp [List.isPrefixOf] at h
      | cons c2 cs2 =>
        simp only [List.isPrefixOf, Bool.and_eq_true] at h
        exact listHasSub_cons _ _ _ (listHasSub_cons _ _ _
          (listHasSub_of_isPrefixOf _ _ h.2.2))
    · exact listHasSub_cons _ _ _ (ih h)

/-- A name containing "noaffa" contains "affa". -/
theorem pyIn_affa_of_noaffa (s : String) (h : pyIn "noaffa" s = true) :
    pyIn "affa" s = true := by
  unfold pyIn at h ⊢
  rw [show "noaffa".toList = ['n', 'o', 'a', 'f', 'f', 'a'] from rfl] at h
  rw [show "affa".toList = ['a', 'f', 'f', 'a'] from rfl]
  exact listHasSub_affa_of_noaffa _ h

theorem generate_dictionary_keys_complete (g : AgentGroup) :
    (dictLookup g.value generate_dictionary_keys).isSome = true := by
  cases g <;> decide

/-! ## appcode/helpers/time_helpers.py

The helpers delegate to Python `datetime`, which converts between calendar
dates and epoch seconds through the proleptic Gregorian calendar in the
local timezone.  The model below implements that calendar mapping and takes
the local timezone as a fixed UTC offset `off` (in seconds); daylight-saving
transitions of a real tz database are outside the model. -/

/-- Gregorian leap-year rule. -/
def isLeapYear (y : Int) : Bool :=
  (y % 4 == 0 && y % 100 != 0) || y % 400 == 0

def yearLength (y : Int) : Int :=
  if isLeapYear y then 366 else 365

def daysInMonth (y m : Int) : Int :=
  if m = 2 then (if isLeapYear y then 29 else 28)
  else if m = 4 ∨ m = 6 ∨ m = 9 ∨ m = 11 then 30
  else 31

def daysBeforeMonth (y m : Int) : Int :=
  (if m = 1 then 0
   else if m = 2 then 31
   else if m = 3 then 31
   else if m = 4 then 62
   else if m = 5 then 92
   else if m = 6 then 123
   else if m = 7 then 153
   else if m = 8 then 184
   else if m = 9 then 215
   else if m = 10 then 245
   else if m = 11 then 276
   else 306)
  + (if 3 ≤ m then (if isLeapYear y then 29 else 28) else 0)

/-- Total days in the consecutive years `y0, y0+1, ..., y0+n-1`. -/
def daysUpTo (y0 : Int) : Nat → Int
  | 0 => 0
  | n + 1 => yearLength y0 + daysUpTo (y0 + 1) n

/-- Days from 1970-01-01 to the first day of year `y` (negative before 1970). -/
def yearsToDays (y : Int) : Int :=
  if 1970 ≤ y then daysUpTo 1970 (y - 1970).toNat
  else - daysUpTo y (1970 - y).toNat

/-- A Python `datetime.date` value. -/
structure CivilDate where
  year : Int
  month : Int
  day : Int
deriving DecidableEq, Repr

def CivilDate.Valid (dt : CivilDate) : Prop :=
  1 ≤ dt.month ∧ dt.month ≤ 12 ∧ 1 ≤ dt.day ∧ dt.day ≤ daysInMonth dt.year dt.month

instance (dt : CivilDate) : Decidable dt.Valid := by
  unfold CivilDate.Valid
  infer_instance

/-- Days since the epoch 1970-01-01 of a calendar date. -/
def civilToDays (dt : CivilDate) : Int :=
  yearsToDays dt.year + daysBeforeMonth dt.year dt.month + (dt.day - 1)

def upSearch (fuel : Nat) (y z : Int) : Int × Int :=
  match fuel with
  | 0 => (y, z)
  | fuel + 1 =>
    if z < yearLength y then (y, z) else upSearch fuel (y + 1) (z - yearLength y)

def downSearch (fuel : Nat) (y z : Int) : Int × Int :=
  match fuel with
  | 0 => (y, z)
  | fuel + 1 =>
    if 0 ≤ z + yearLength (y - 1) then (y - 1, z + yearLength (y - 1))
    else downSearch fuel (y - 1) (z + yearLength (y - 1))

def monthSearch (y : Int) : Nat → Int → Int → Int × Int
  | 0, m, r => (m, r + 1)
  | fuel + 1, m, r =>
    if r < daysInMonth y m then (m, r + 1)
    else monthSearch y fuel (m + 1) (r - daysInMonth y m)

/-- Calendar date of a day count since the epoch 1970-01-01. -/
def daysToCivil (z : Int) : CivilDate :=
  let yr := if z < 0 then downSearch (z.natAbs / 365 + 1) 1970 z
            else upSearch (z.toNat / 365 + 1) 1970 z
  let md := monthSearch yr.1 11 1 yr.2
  ⟨yr.1, md.1, md.2⟩

example : civilToDays ⟨1970, 1, 1⟩ = 0 := by decide
example : civilToDays ⟨2025, 1, 1⟩ = 20089 := by decide
example : daysToCivil 20089 = ⟨2025, 1, 1⟩ := by decide
example : daysToCivil (civilToDays ⟨2024, 2, 29⟩) = ⟨2024, 2, 29⟩ := by decide
example : daysToCivil (civilToDays ⟨1900, 3, 1⟩) = ⟨1900, 3, 1⟩ := by decide
example : daysToCivil (civilToDays ⟨1969, 12, 31⟩) = ⟨1969, 12, 31⟩ := by decide
example : daysToCivil (civilToDays ⟨1960, 2, 29⟩) = ⟨1960, 2, 29⟩ := by decide

theorem yearLength_bounds (y : Int) : 365 ≤ yearLength y ∧ yearLength y ≤ 366 := by
  unfold yearLength; split <;> omega

theorem daysUpTo_lb (n : Nat) : ∀ y0 : Int, 365 * n ≤ daysUpTo y0 n := by
  induction n with
  | zero => intro y0; simp [daysUpTo]
  | succ k ih =>
    intro y0
    have h1 := yearLength_bounds y0
    have h2 := ih (y0 + 1)
    simp only [daysUpTo]
    push_cast
    omega

theorem daysUpTo_top (n : Nat) : ∀ y0 : Int,
    daysUpTo y0 (n + 1) = daysUpTo y0 n + yearLength (y0 + n) := by
  induction n with
  | zero => intro y0; simp [daysUpTo]
  | succ k ih =>
    intro y0
    show yearLength y0 + daysUpTo (y0 + 1) (k + 1) = _
    rw [ih (y0 + 1)]
    have harg : y0 + 1 + (k : Int) = y0 + ((k + 1 : Nat) : Int) := by push_cast; ring
    rw [harg]
    show _ = yearLength y0 + daysUpTo (y0 + 1) k + yearLength (y0 + ((k + 1 : Nat) : Int))
    ring

theorem upSearch_spec (n : Nat) : ∀ (fuel : Nat) (y0 r : Int), n < fuel →
    0 ≤ r → r < yearLength (y0 + n) →
    upSearch fuel y0 (daysUpTo y0 n + r) = (y0 + n, r) := by
  induction n with
  | zero =>
    intro fuel y0 r hf h0 hr
    match fuel, hf with
    | fuel + 1, _ =>
      simp only [daysUpTo, upSearch, zero_add]
      rw [if_pos (by simpa using hr)]
      simp
  | succ k ih =>
    intro fuel y0 r hf h0 hr
    match fuel, hf with
    | fuel + 1, hf =>
      simp only [daysUpTo, upSearch]
      have hlb := daysUpTo_lb k (y0 + 1)
      rw [if_neg (by omega)]
      have harg : yearLength y0 + daysUpTo (y0 + 1) k + r - yearLength y0
          = daysUpTo (y0 + 1) k + r := by ring
      rw [harg]
      have harg2 : y0 + 1 + (k : Int) = y0 + ((k + 1 : Nat) : Int) := by push_cast; ring
      rw [ih fuel (y0 + 1) r (by omega) h0 (by rw [harg2]; exact hr), harg2]

theorem downSearch_spec (n : Nat) : ∀ (fuel : Nat) (y0 r : Int), n < fuel →
    0 ≤ r → r < yearLength (y0 - (n + 1)) →
    downSearch fuel y0 (r - daysUpTo (y0 - (n + 1)) (n + 1)) = (y0 - (n + 1), r) := by
  induction n with
  | zero =>
    intro fuel y0 r hf h0 hr
    match fuel, hf with
    | fuel + 1, _ =>
      have harg : y0 - ((0 : Nat) + 1 : Int) = y0 - 1 := by push_cast; ring
      rw [harg] at hr ⊢
      simp only [daysUpTo, downSearch]
      have hz : r - (yearLength (y0 - 1) + 0) + yearLength (y0 - 1) = r := by ring
      rw [hz] at *
      rw [if_pos h0]
  | succ k ih =>
    intro fuel y0 r hf h0 hr
    match fuel, hf with
    | fuel + 1, hf =>
      have hcast : (((k + 1 : Nat) : Int) + 1) = (k : Int) + 2 := by push_cast; ring
      rw [hcast] at hr ⊢
      simp only [downSearch]
      have htop := daysUpTo_top (k + 1) (y0 - ((k : Int) + 2))
      rw [show (((k + 1 : Nat) : Int)) = (k : Int) + 1 from by push_cast; ring] at htop
      rw [show y0 - ((k : Int) + 2) + ((k : Int) + 1) = y0 - 1 from by ring] at htop
      have hlb := daysUpTo_lb (k + 1) (y0 - ((k : Int) + 2))
      rw [show (((k + 1 : Nat) : Int)) = (k : Int) + 1 from by push_cast; ring] at hlb
      have hylb := yearLength_bounds (y0 - ((k : Int) + 2))
      have hyl1 := yearLength_bounds (y0 - 1)
      have hbot : daysUpTo (y0 - ((k : Int) + 2)) (k + 1)
          = yearLength (y0 - ((k : Int) + 2)) + daysUpTo (y0 - ((k : Int) + 2) + 1) k := rfl
      have hlb2 := daysUpTo_lb k (y0 - ((k : Int) + 2) + 1)
      rw [if_neg (by omega)]
      have harg3 : r - daysUpTo (y0 - ((k : Int) + 2)) (k + 1 + 1) + yearLength (y0 - 1)
          = r - daysUpTo ((y0 - 1) - (((k : Nat) : Int) + 1)) (k + 1) := by
        rw [htop, show (y0 - 1) - (((k : Nat) : Int) + 1) = y0 - ((k : Int) + 2) from by ring]
        ring
      rw [harg3]
      have hside : r < yearLength ((y0 - 1) - (((k : Nat) : Int) + 1)) := by
        rw [show (y0 - 1) - (((k : Nat) : Int) + 1) = y0 - ((k : Int) + 2) from by ring]
        exact hr
      have hih := ih fuel (y0 - 1) r (by omega) h0 hside
      rw [show y0 - ((k : Int) + 2) = (y0 - 1) - (((k : Nat) : Int) + 1) from by ring]
      exact hih

theorem daysInMonth_bounds (y m : Int) : 28 ≤ daysInMonth y m ∧ daysInMonth y m ≤ 31 := by
  unfold daysInMonth; split_ifs <;> omega

theorem daysBeforeMonth_nonneg (y m : Int) (h1 : 1 ≤ m) (h2 : m ≤ 12) :
    0 ≤ daysBeforeMonth y m := by
  interval_cases m <;> norm_num [daysBeforeMonth] <;> (try split_ifs) <;> omega

theorem daysBeforeMonth_succ (y m : Int) (h1 : 1 ≤ m) (h2 : m ≤ 11) :
    daysBeforeMonth y (m + 1) = daysBeforeMonth y m + daysInMonth y m := by
  interval_cases m <;> norm_num [daysBeforeMonth, daysInMonth] <;> split_ifs <;> omega

theorem daysBeforeMonth_mono (n : Nat) : ∀ a : Int, 1 ≤ a → a + n ≤ 12 →
    ∀ y : Int, daysBeforeMonth y a ≤ daysBeforeMonth y (a + n) := by
  induction n with
  | zero => intro a _ _ y; simp
  | succ k ih =>
    intro a h1 h2 y
    have hcast : a + ((k + 1 : Nat) : Int) = (a + (k : Nat)) + 1 := by push_cast; ring
    rw [hcast]
    rw [daysBeforeMonth_succ y (a + (k : Nat)) (by omega) (by push_cast at h2 ⊢; omega)]
    have h3 := ih a h1 (by push_cast at h2 ⊢; omega) y
    have h4 := daysInMonth_bounds y (a + (k : Nat))
    omega

theorem monthSearch_go (y : Int) (n : Nat) : ∀ (fuel : Nat) (mS d : Int), n ≤ fuel →
    1 ≤ mS → mS + n ≤ 12 → 1 ≤ d → d ≤ daysInMonth y (mS + n) →
    monthSearch y fuel mS (daysBeforeMonth y (mS + n) - daysBeforeMonth y mS + d - 1)
      = (mS + n, d) := by
  induction n with
  | zero =>
    intro fuel mS d _ hm1 hm2 hd1 hd2
    have hz : mS + ((0 : Nat) : Int) = mS := by push_cast; ring
    rw [hz] at hd2 ⊢
    have harg : daysBeforeMonth y mS - daysBeforeMonth y mS + d - 1 = d - 1 := by ring
    rw [harg]
    match fuel with
    | 0 =>
      show (mS, d - 1 + 1) = (mS, d)
      rw [show d - 1 + 1 = d from by ring]
    | fuel + 1 =>
      simp only [monthSearch]
      rw [if_pos (by omega), show d - 1 + 1 = d from by ring]
  | succ k ih =>
    intro fuel mS d hf hm1 hm2 hd1 hd2
    match fuel, hf with
    | fuel + 1, hf =>
      have hcast : mS + ((k + 1 : Nat) : Int) = mS + (k : Nat) + 1 := by push_cast; ring
      rw [hcast] at hm2 hd2 ⊢
      have hm11 : mS ≤ 11 := by push_cast at hm2; omega
      have hsucc := daysBeforeMonth_succ y mS hm1 hm11
      have hmono : daysBeforeMonth y (mS + 1) ≤ daysBeforeMonth y (mS + (k : Nat) + 1) := by
        have := daysBeforeMonth_mono k (mS + 1) (by omega) (by push_cast at hm2 ⊢; omega) y
        rw [show mS + 1 + ((k : Nat) : Int) = mS + (k : Nat) + 1 from by ring] at this
        exact this
      have hdimS := daysInMonth_bounds y mS
      simp only [monthSearch]
      rw [if_neg (by omega)]
      have harg : daysBeforeMonth y (mS + (k : Nat) + 1) - daysBeforeMonth y mS + d - 1
            - daysInMonth y mS
          = daysBeforeMonth y ((mS + 1) + (k : Nat)) - daysBeforeMonth y (mS + 1) + d - 1 := by
        rw [show (mS + 1) + ((k : Nat) : Int) = mS + (k : Nat) + 1 from by ring]
        omega
      rw [harg]
      have hih := ih fuel (mS + 1) d (by omega) (by omega)
        (by push_cast at hm2 ⊢; omega) hd1
        (by rw [show (mS + 1) + ((k : Nat) : Int) = mS + (k : Nat) + 1 from by ring]; exact hd2)
      rw [show mS + ((k : Nat) : Int) + 1 = (mS + 1) + ((k : Nat) : Int) from by ring]
      exact hih

theorem monthSearch_correct (y m d : Int) (hm1 : 1 ≤ m) (hm2 : m ≤ 12)
    (hd1 : 1 ≤ d) (hd2 : d ≤ daysInMonth y m) :
    monthSearch y 11 1 (daysBeforeMonth y m + d - 1) = (m, d) := by
  have hn : (1 : Int) + ((m - 1).toNat : Int) = m := by omega
  have h1 : daysBeforeMonth y 1 = 0 := by norm_num [daysBeforeMonth]
  have hgo := monthSearch_go y (m - 1).toNat 11 1 d (by omega) (by omega)
    (by rw [hn]; omega) hd1 (by rw [hn]; exact hd2)
  rw [hn, h1] at hgo
  rw [show daysBeforeMonth y m + d - 1 = daysBeforeMonth y m - 0 + d - 1 from by ring]
  exact hgo

theorem dayr_bounds (y m d : Int) (hm1 : 1 ≤ m) (hm2 : m ≤ 12)
    (hd1 : 1 ≤ d) (hd2 : d ≤ daysInMonth y m) :
    0 ≤ daysBeforeMonth y m + d - 1 ∧ daysBeforeMonth y m + d - 1 < yearLength y := by
  have h0 := daysBeforeMonth_nonneg y m hm1 hm2
  constructor
  · omega
  · rcases eq_or_lt_of_le hm2 with h12 | h11
    · subst m
      norm_num [daysBeforeMonth, daysInMonth, yearLength] at hd2 ⊢
      split_ifs at hd2 ⊢ <;> omega
    · have hsucc := daysBeforeMonth_succ y m hm1 (by omega)
      have hmono : daysBeforeMonth y (m + 1) ≤ daysBeforeMonth y 12 := by
        have := daysBeforeMonth_mono (12 - (m + 1)).toNat (m + 1) (by omega) (by omega) y
        rw [show (m + 1) + (((12 - (m + 1)).toNat : Nat) : Int) = 12 from by omega] at this
        exact this
      have h12v : daysBeforeMonth y 12 ≤ 335 := by
        norm_num [daysBeforeMonth]; split_ifs <;> omega
      have hyl := yearLength_bounds y
      omega

/-- The calendar maps are mutually inverse on valid dates. -/
theorem daysToCivil_civilToDays (dt : CivilDate) (h : dt.Valid) :
    daysToCivil (civilToDays dt) = dt := by
  obtain ⟨y, m, d⟩ := dt
  obtain ⟨hm1, hm2, hd1, hd2⟩ := h
  have hdayr := dayr_bounds y m d hm1 hm2 hd1 hd2
  set r := daysBeforeMonth y m + d - 1 with hr_def
  rcases le_or_lt 1970 y with hy | hy
  · -- year at or after 1970: the up search is taken
    have hyn : ((y - 1970).toNat : Int) = y - 1970 := by omega
    have hz : civilToDays ⟨y, m, d⟩ = daysUpTo 1970 (y - 1970).toNat + r := by
      simp only [civilToDays, yearsToDays, if_pos hy]
      ring
    have hlb := daysUpTo_lb (y - 1970).toNat 1970
    have hznn : 0 ≤ civilToDays ⟨y, m, d⟩ := by rw [hz]; omega
    have hup := upSearch_spec (y - 1970).toNat ((civilToDays ⟨y, m, d⟩).toNat / 365 + 1)
      1970 r (by rw [hz]; omega) (by omega)
      (by rw [show (1970 : Int) + ((y - 1970).toNat : Int) = y from by omega]; exact hdayr.2)
    rw [show (1970 : Int) + ((y - 1970).toNat : Int) = y from by omega] at hup
    rw [← hz] at hup
    simp only [daysToCivil, if_neg (by omega : ¬ civilToDays ⟨y, m, d⟩ < 0), hup]
    rw [monthSearch_correct y m d hm1 hm2 hd1 hd2]
  · -- year before 1970: the down search is taken
    have hn1 : (1 : Int) ≤ 1970 - y := by omega
    have hyn : ((1970 - y).toNat : Int) = 1970 - y := by omega
    have hz : civilToDays ⟨y, m, d⟩ = r - daysUpTo y (1970 - y).toNat := by
      simp only [civilToDays, yearsToDays, if_neg (by omega : ¬ 1970 ≤ y)]
      ring
    obtain ⟨n', hn'⟩ : ∃ n' : Nat, (1970 - y).toNat = n' + 1 := ⟨(1969 - y).toNat, by omega⟩
    have hyn' : y = 1970 - ((n' : Int) + 1) := by omega
    have hbot : daysUpTo y (n' + 1) = yearLength y + daysUpTo (y + 1) n' := rfl
    have hlb := daysUpTo_lb n' (y + 1)
    have hyl := yearLength_bounds y
    have hzneg : civilToDays ⟨y, m, d⟩ < 0 := by
      rw [hz, hn', hbot]
      have := hdayr.2
      omega
    have hdown := downSearch_spec n' ((civilToDays ⟨y, m, d⟩).natAbs / 365 + 1) 1970 r
      (by rw [hz, hn', hbot]
          have h2 := hdayr.2
          have h3 := hdayr.1
          omega)
      (by omega)
      (by rw [show (1970 : Int) - ((n' : Int) + 1) = y from by omega]; exact hdayr.2)
    rw [show (1970 : Int) - ((n' : Int) + 1) = y from by omega] at hdown
    rw [show (n' : Nat) + 1 = (1970 - y).toNat from hn'.symm] at hdown
    rw [← hz] at hdown
    simp only [daysToCivil, if_pos hzneg, hdown]
    rw [monthSearch_correct y m d hm1 hm2 hd1 hd2]

/-- Zero-padded two-digit rendering, as Python `f"{n:02}"`. -/
def pad2 (n : Int) : String :=
  if 0 ≤ n ∧ n < 10 then "0" ++ toString n else toString n

/-- Embeds `date_to_unix` (time_helpers.py, lines 26-42): epoch seconds of
local midnight of the given date, in a locale at fixed UTC offset `off`. -/
def date_to_unix (off : Int) (raw_date : CivilDate) : Int :=
  civilToDays raw_date * 86400 - off

/-- Embeds `unix_to_date` (time_helpers.py, lines 45-61): the local calendar
date of an epoch timestamp, in a locale at fixed UTC offset `off`. -/
def unix_to_date (off ts : Int) : CivilDate :=
  daysToCivil ((ts + off) / 86400)

/-- Embeds `unix_to_time` (time_helpers.py, lines 64-80): the local wall-clock
time of day of an epoch timestamp, rendered "HH:MM:SS". -/
def unix_to_time (off ts : Int) : String :=
  let sod := (ts + off) % 86400
  pad2 (sod / 3600) ++ ":" ++ pad2 (sod % 3600 / 60) ++ ":" ++ pad2 (sod % 60)

/-- Embeds `seconds_to_timestamp` (time_helpers.py, lines 83-99):
`divmod(seconds, 60)` rendered "MM:SS". -/
def seconds_to_timestamp (seconds : Int) : String :=
  pad2 (seconds / 60) ++ ":" ++ pad2 (seconds % 60)

example : seconds_to_timestamp 125 = "02:05" := by decide
example : seconds_to_timestamp 59 = "00:59" := by decide
example : seconds_to_timestamp 6000 = "100:00" := by decide
example : unix_to_time 0 125 = "00:02:05" := by decide
example : unix_to_time 0 1766278800 = "01:00:00" := by decide
example : unix_to_time 32400 1766278800 = "10:00:00" := by decide

/-! ## appcode/connections/agent_connection.py -/

/-- A data-collection field definition, as built by the updater
(`LiteralJsonSchemaProperty(type=..., description=...)`). -/
structure JsonSchemaProperty where
  type : String
  description : String
deriving DecidableEq, Repr

structure PlatformSettings where
  data_collection : List (String × JsonSchemaProperty)
deriving DecidableEq, Repr

/-- The full agent record returned by `client.conversational_ai.agents.get`. -/
structure AgentDetail where
  agent_id : String
  name : String
  platform_settings : PlatformSettings
deriving DecidableEq, Repr

/-- One entry of the remote `agents.list()` response. -/
structure AgentListEntry where
  agent_id : String
  name : String
deriving DecidableEq, Repr

/-- The per-instance state built by `AgentConnection.__init__`. -/
structure AgentConnectionState where
  agents : List (String × AgentDetail)
  agents_ids : List String
  agent_groups_ids : List (String × List String)
deriving DecidableEq, Repr

/-- Embeds `AgentConnection.__init__` (agent_connection.py, lines 34-59) for a
fresh process: the remote listing response is `entries` and the per-agent
detail fetch is `getDetail`. -/
def AgentConnection.init (entries : List AgentListEntry)
    (getDetail : String → AgentDetail) : AgentConnectionState :=
  entries.foldl
    (fun st agent =>
      let groups := get_agent_groups agent.name
      { agents := dictSet agent.agent_id (getDetail agent.agent_id) st.agents,
        agents_ids := st.agents_ids ++ [agent.agent_id],
        agent_groups_ids :=
          groups.foldl (fun d g => dictAppendAt g.value agent.agent_id d) st.agent_groups_ids })
    ⟨[], [], generate_dictionary_keys⟩

def get_all_agents (st : AgentConnectionState) : List (String × AgentDetail) :=
  st.agents

def get_all_agent_ids (st : AgentConnectionState) : List String :=
  st.agents_ids

/-- Embeds `get_agent_group_ids` (agent_connection.py, lines 82-92); the
subscript read `self.agent_groups_ids[agent_group.value]` raises KeyError on a
missing key, embedded as `none`. -/
def get_agent_group_ids (st : AgentConnectionState) (agent_group : AgentGroup) :
    Option (List String) :=
  dictLookup agent_group.value st.agent_groups_ids

/-- Embeds `get_agent` (agent_connection.py, lines 95-105): `dict.get`,
returning `None` for an unknown id. -/
def get_agent (st : AgentConnectionState) (agent_id : String) : Option AgentDetail :=
  dictLookup agent_id st.agents

/-! ## appcode/connections/conversation_connection.py -/

/-- One entry of the remote `conversations.list` response page. -/
structure ConvSummary where
  conversation_id : String
  agent_id : String
  agent_name : String
  start_time_unix_secs : Int
  call_duration_secs : Int
  status : String
  call_successful : String
  direction : String
deriving DecidableEq, Repr

/-- The `conversation_info` dict built inside `ConversationConnection.build`
(conversation_connection.py, lines 114-127). -/
structure ConvInfo where
  conversation_id : String
  agent_id : String
  agent_name : String
  start_date : CivilDate
  start_time : String
  call_duration_secs : Int
  call_duration_timestamp : String
  status : String
  successful : String
  direction : String
  agent_groups : List String
deriving DecidableEq, Repr

def conversation_info (off : Int) (c : ConvSummary) : ConvInfo :=
  { conversation_id := c.conversation_id,
    agent_id := c.agent_id,
    agent_name := c.agent_name,
    start_date := unix_to_date off c.start_time_unix_secs,
    start_time := unix_to_time off c.start_time_unix_secs,
    call_duration_secs := c.call_duration_secs,
    call_duration_timestamp := unix_to_time off c.call_duration_secs,
    status := c.status,
    successful := c.call_successful,
    direction := c.direction,
    agent_groups := get_agent_groups_as_strings c.agent_name }

/-- The container state of one `ConversationConnection` build. -/
structure ConversationConnectionState where
  accepted_agent_ids : List String
  conversations : List (String × ConvInfo)
  conversation_ids : List String
  conversation_ids_per_agent_id : List (String × String)
  conversation_ids_per_agent_group : List (String × List String)
deriving DecidableEq, Repr

/-- The per-conversation body of the `build` loop
(conversation_connection.py, lines 100-136). -/
def processConversation (off : Int) (st : ConversationConnectionState)
    (c : ConvSummary) : ConversationConnectionState :=
  if 0 < st.accepted_agent_ids.length ∧ c.agent_id ∉ st.accepted_agent_ids then st
  else
    let groups := get_agent_groups c.agent_name
    { st with
      conversations := dictSet c.conversation_id (conversation_info off c) st.conversations,
      conversation_ids := st.conversation_ids ++ [c.conversation_id],
      conversation_ids_per_agent_id :=
        dictSet c.agent_id c.conversation_id st.conversation_ids_per_agent_id,
      conversation_ids_per_agent_group :=
        groups.foldl (fun d g => dictAppendAt g.value c.conversation_id d)
          st.conversation_ids_per_agent_group }

/-- Embeds `ConversationConnection.build` (conversation_connection.py,
lines 73-136): the per-group index is reset to the full key set, then every
conversation of every returned page is processed in order.  The remote
pagination is passed in as the list of pages it yields. -/
def ConversationConnection.build (off : Int) (pages : List (List ConvSummary))
    (st : ConversationConnectionState) : ConversationConnectionState :=
  pages.foldl (fun s page => page.foldl (processConversation off) s)
    { st with conversation_ids_per_agent_group := generate_dictionary_keys }

/-- Embeds `set_accepted_agent_ids` (conversation_connection.py, lines 139-150):
`self.accepted_agent_ids.extend(agent_ids)`. -/
def set_accepted_agent_ids (st : ConversationConnectionState)
    (agent_ids : List String) : ConversationConnectionState :=
  { st with accepted_agent_ids := st.accepted_agent_ids ++ agent_ids }

/-- Embeds `set_accepted_agent_groups` (conversation_connection.py,
lines 153-170): each group is expanded through the agent catalog and the ids
are passed to `set_accepted_agent_ids`.  The catalog subscript never misses
after `AgentConnection.__init__` (see `get_agent_group_ids_init_isSome`), so
the missing-key branch is embedded as the empty expansion. -/
def set_accepted_agent_groups (st : ConversationConnectionState)
    (catalog : AgentConnectionState) (agent_groups : List AgentGroup) :
    ConversationConnectionState :=
  agent_groups.foldl
    (fun s group => set_accepted_agent_ids s ((get_agent_group_ids catalog group).getD [])) st

def get_all_conversations_info (st : ConversationConnectionState) :
    List (String × ConvInfo) :=
  st.conversations

def get_all_conversation_ids (st : ConversationConnectionState) : List String :=
  st.conversation_ids

/-- Embeds `get_conversation_ids_from_agent` (conversation_connection.py,
lines 214-221); the subscript raises KeyError on a missing key, embedded as
`none`. -/
def get_conversation_ids_from_agent (st : ConversationConnectionState)
    (agent_id : String) : Option String :=
  dictLookup agent_id st.conversation_ids_per_agent_id

/-- Embeds `get_conversation_ids_from_agent_group` (conversation_connection.py,
lines 224-231). -/
def get_conversation_ids_from_agent_group (st : ConversationConnectionState)
    (agent_group : AgentGroup) : Option (List String) :=
  dictLookup agent_group.value st.conversation_ids_per_agent_group

/-! ## appcode/processors/downloaders/conversation_downloader.py
(dynamic-variable enrichment) -/

/-- A JSON-ish dynamic-variable value. -/
inductive PyVal : Type
  | int (n : Int)
  | str (s : String)
deriving DecidableEq, Repr

structure ClientData where
  dynamic_variables : Option (List (String × PyVal))
deriving DecidableEq, Repr

/-- The slice of the remote conversation detail record the enrichment uses. -/
structure RawConvDetails where
  conversation_initiation_client_data : Option ClientData
deriving DecidableEq, Repr

/-- Python `s.startswith(pre)`. -/
def pyStartsWith (s pre : String) : Bool :=
  pre.toList.isPrefixOf s.toList

/-- The per-key body of the `process_dynamic_variables` loop: pop the key when
it starts with "system", then pop it when it is one of the four contact keys. -/
def dynVarStep (d : List (String × PyVal)) (key : String) : List (String × PyVal) :=
  let d1 := if pyStartsWith key "system" then dictPop key d else d
  if key = "email" ∨ key = "phone" ∨ key = "secret_user_id" ∨ key = "secret_object_id"
  then dictPop key d1 else d1

/-- Embeds `process_dynamic_variables` (conversation_downloader.py,
lines 270-288): copy the mapping, then for each original key pop it when it
starts with "system" or is one of the four contact keys. -/
def process_dynamic_variables (raw_details : RawConvDetails) : List (String × PyVal) :=
  match raw_details.conversation_initiation_client_data with
  | none => []
  | some client_data =>
    match client_data.dynamic_variables with
    | none => []
    | some raw_dynamic_variables =>
      (dictKeys raw_dynamic_variables).foldl dynVarStep raw_dynamic_variables

/-- The keys `process_dynamic_variables` is specified to drop. -/
def isFilteredKey (key : String) : Bool :=
  pyStartsWith key "system" || key == "email" || key == "phone"
    || key == "secret_user_id" || key == "secret_object_id"

/-! ## appcode/processors/updaters/data_collection_updater.py -/

/-- One `agents.update(agent_id=..., platform_settings=...)` call issued by
the updater. -/
structure UpdateCall where
  agent_id : String
  data_collection : List (String × JsonSchemaProperty)
deriving DecidableEq, Repr

/-- Embeds `DataCollectionUpdater.update` (data_collection_updater.py,
lines 127-162) as the list of update calls it issues: for each selected agent
the current data-collection schema is fetched from the catalog, the entry for
`variable_name` is overwritten, and the whole mapping is pushed back for that
one agent.  A failed `get_agent` (`None.platform_settings` raises) is `none`. -/
def DataCollectionUpdater.update (connection : AgentConnectionState)
    (agent_ids : List String)
    (variable_name variable_type variable_prompt : String) : Option (List UpdateCall) :=
  match agent_ids with
  | [] => some []
  | agent_id :: rest =>
    match get_agent connection agent_id with
    | none => none
    | some agent =>
      let variable_settings : JsonSchemaProperty := ⟨variable_type, variable_prompt⟩
      let call : UpdateCall :=
        ⟨agent_id, dictSet variable_name variable_settings agent.platform_settings.data_collection⟩
      match DataCollectionUpdater.update connection rest
              variable_name variable_type variable_prompt with
      | none => none
      | some calls => some (call :: calls)

/-! ## Python attribute semantics for the class-level container defaults

The builder classes declare their container fields in the class body
(for example `accepted_agent_ids = []` in `ConversationConnection`,
lines 55-64), and `__init__` assigns only `self.client`.  In Python the class
body runs once and allocates one list object; an instance without its own
binding resolves the attribute to that shared object, and in-place mutation
(`self.accepted_agent_ids.extend(...)`) mutates it for every instance.  The
embedding below makes the store of list objects and the attribute resolution
explicit for the `accepted_agent_ids` field. -/

structure PyListStore where
  cells : List (Nat × List String)
deriving DecidableEq, Repr

def storeRead (store : PyListStore) (ref : Nat) : List String :=
  (dictLookup ref store.cells).getD []

def storeExtend (store : PyListStore) (ref : Nat) (xs : List String) : PyListStore :=
  ⟨dictSet ref (storeRead store ref ++ xs) store.cells⟩

/-- The one list object allocated when the class body runs
(`accepted_agent_ids = []`). -/
def acceptedAgentIdsClassRef : Nat := 0

def initialListStore : PyListStore := ⟨[(acceptedAgentIdsClassRef, [])]⟩

/-- An instance's `__dict__`, mapping field names to list objects. -/
structure PyInstance where
  instance_refs : List (String × Nat)
deriving DecidableEq, Repr

/-- `ConversationConnection.__init__` (lines 67-68) assigns only
`self.client`, so a fresh instance has no per-instance binding for any
container field. -/
def ConversationConnection.new : PyInstance := ⟨[]⟩

/-- Python attribute resolution: the instance `__dict__` first, then the
class attribute. -/
def attrRef (inst : PyInstance) (field : String) (classRef : Nat) : Nat :=
  (dictLookup field inst.instance_refs).getD classRef

/-- `set_accepted_agent_ids` as executed on an instance:
`self.accepted_agent_ids.extend(agent_ids)` mutates the resolved list object
in place. -/
def set_accepted_agent_ids_on (store : PyListStore) (inst : PyInstance)
    (agent_ids : List String) : PyListStore :=
  storeExtend store (attrRef inst "accepted_agent_ids" acceptedAgentIdsClassRef) agent_ids

def read_accepted_agent_ids (store : PyListStore) (inst : PyInstance) : List String :=
  storeRead store (attrRef inst "accepted_agent_ids" acceptedAgentIdsClassRef)

/-! ## Shared lemmas about the aggregation step -/

/-- The skip condition of the `build` loop, as a Boolean keep-predicate. -/
def isKept (accepted : List String) (c : ConvSummary) : Bool :=
  decide ¬(0 < accepted.length ∧ c.agent_id ∉ accepted)

theorem processConversation_skipped (off : Int) (st : ConversationConnectionState)
    (c : ConvSummary)
    (h : 0 < st.accepted_agent_ids.length ∧ c.agent_id ∉ st.accepted_agent_ids) :
    processConversation off st c = st := by
  unfold processConversation
  rw [if_pos h]

theorem processConversation_kept (off : Int) (st : ConversationConnectionState)
    (c : ConvSummary)
    (h : ¬(0 < st.accepted_agent_ids.length ∧ c.agent_id ∉ st.accepted_agent_ids)) :
    processConversation off st c =
      { st with
        conversations := dictSet c.conversation_id (conversation_info off c) st.conversations,
        conversation_ids := st.conversation_ids ++ [c.conversation_id],
        conversation_ids_per_agent_id :=
          dictSet c.agent_id c.conversation_id st.conversation_ids_per_agent_id,
        conversation_ids_per_agent_group :=
          (get_agent_groups c.agent_name).foldl
            (fun d g => dictAppendAt g.value c.conversation_id d)
            st.conversation_ids_per_agent_group } := by
  unfold processConversation
  rw [if_neg h]

theorem processConversation_accepted_unchanged (off : Int)
    (st : ConversationConnectionState) (c : ConvSummary) :
    (processConversation off st c).accepted_agent_ids = st.accepted_agent_ids := by
  unfold processConversation
  split <;> rfl

/-! ## Claims -/

/-- Claim C1: the claim states that every container field of the builder and
connection classes is initialized per instance, so that mutating one instance
leaves any other unchanged.  The code declares the containers as class-level
defaults instead: this theorem evaluates the embedded Python attribute
semantics at the failing input — two freshly constructed
`ConversationConnection` instances — and shows that extending
`accepted_agent_ids` through the first makes the second one read the same
mutated list, where the claim requires it to still read `[]`. -/
theorem claim_C1 :
    read_accepted_agent_ids
        (set_accepted_agent_ids_on initialListStore ConversationConnection.new ["agent_a"])
        ConversationConnection.new = ["agent_a"]
    ∧ read_accepted_agent_ids initialListStore ConversationConnection.new = [] := by
  constructor <;> rfl

/-- Claim C3: after `build`, the per-agent single-id accessor returns only the
id of the last conversation inserted for that agent id — inserting two
conversations for the same agent overwrites rather than accumulates. -/
theorem claim_C3 (off : Int) (st : ConversationConnectionState) (a : String)
    (c1 c2 : ConvSummary) (h1 : c1.agent_id = a) (h2 : c2.agent_id = a)
    (hacc : st.accepted_agent_ids = []) :
    get_conversation_ids_from_agent
        (ConversationConnection.build off [[c1, c2]] st) a
      = some c2.conversation_id := by
  unfold ConversationConnection.build
  simp only [List.foldl_cons, List.foldl_nil]
  rw [processConversation_kept off _ c1 (by simp [hacc])]
  rw [processConversation_kept off _ c2 (by simp [hacc])]
  unfold get_conversation_ids_from_agent
  simp only []
  rw [← h2]
  exact dictLookup_set_self c2.agent_id c2.conversation_id _

theorem claim_C3_witness :
    get_conversation_ids_from_agent
        (ConversationConnection.build 0
          [[⟨"conv1", "agentA", "Elena", 100, 10, "done", "success", "inbound"⟩,
            ⟨"conv2", "agentA", "Elena", 200, 20, "done", "success", "inbound"⟩]]
          ⟨[], [], [], [], []⟩)
        "agentA"
      = some "conv2"
    ∧ some "conv2" ≠ some "conv1" :=
  ⟨claim_C3 0 ⟨[], [], [], [], []⟩ "agentA"
      ⟨"conv1", "agentA", "Elena", 100, 10, "done", "success", "inbound"⟩
      ⟨"conv2", "agentA", "Elena", 200, 20, "done", "success", "inbound"⟩
      rfl rfl rfl,
    by decide⟩

/-- Claim C8: for every valid calendar date, converting it to epoch seconds at
local midnight and back yields the same date, in any fixed-offset locale. -/
theorem claim_C8 (off : Int) (dt : CivilDate) (h : dt.Valid) :
    unix_to_date off (date_to_unix off dt) = dt := by
  unfold date_to_unix unix_to_date
  rw [show civilToDays dt * 86400 - off + off = civilToDays dt * 86400 from by ring]
  rw [Int.mul_ediv_cancel _ (by norm_num)]
  exact daysToCivil_civilToDays dt h

theorem claim_C8_witness :
    CivilDate.Valid ⟨2025, 10, 17⟩
    ∧ unix_to_date 3600 (date_to_unix 3600 ⟨2025, 10, 17⟩) = ⟨2025, 10, 17⟩ :=
  ⟨by decide, claim_C8 3600 ⟨2025, 10, 17⟩ (by decide)⟩

/-- Claim C10: the conversation record built by the aggregator computes
`call_duration_timestamp` with `unix_to_time` applied to
`call_duration_secs` — the duration is treated as an absolute epoch timestamp
and rendered as a local "HH:MM:SS" wall-clock time — not with
`seconds_to_timestamp`; under a UTC locale a 125-second call yields
"00:02:05", while `seconds_to_timestamp` would yield "02:05". -/
theorem claim_C10 (off : Int) (st : ConversationConnectionState) (c : ConvSummary)
    (h : ¬(0 < st.accepted_agent_ids.length ∧ c.agent_id ∉ st.accepted_agent_ids)) :
    dictLookup c.conversation_id (processConversation off st c).conversations
        = some (conversation_info off c)
    ∧ (conversation_info off c).call_duration_timestamp
        = unix_to_time off c.call_duration_secs
    ∧ unix_to_time 0 125 = "00:02:05"
    ∧ seconds_to_timestamp 125 = "02:05"
    ∧ ("00:02:05" : String) ≠ "02:05" := by
  refine ⟨?_, rfl, by decide, by decide, by decide⟩
  rw [processConversation_kept off st c h]
  exact dictLookup_set_self c.conversation_id (conversation_info off c) st.conversations

theorem groupFold_isSome (cid : String) (groups : List AgentGroup)
    (d : List (String × List String))
    (h : ∀ g : AgentGroup, (dictLookup g.value d).isSome = true) :
    ∀ g : AgentGroup,
      (dictLookup g.value
        (groups.foldl (fun d g => dictAppendAt g.value cid d) d)).isSome = true := by
  refine foldl_preserve
    (fun d => ∀ g : AgentGroup, (dictLookup g.value d).isSome = true) _ groups d h ?_
  intro d g0 hd g
  rw [dictLookup_appendAt_isSome]
  exact hd g

theorem build_group_index_complete (off : Int) (pages : List (List ConvSummary))
    (st : ConversationConnectionState) (g : AgentGroup) :
    (dictLookup g.value
      (ConversationConnection.build off pages st).conversation_ids_per_agent_group).isSome
      = true := by
  unfold ConversationConnection.build
  refine foldl_preserve
    (fun s : ConversationConnectionState =>
      ∀ g : AgentGroup, (dictLookup g.value s.conversation_ids_per_agent_group).isSome = true)
    _ pages _ (fun g => generate_dictionary_keys_complete g) ?_ g
  intro s page hs
  refine foldl_preserve
    (fun s : ConversationConnectionState =>
      ∀ g : AgentGroup, (dictLookup g.value s.conversation_ids_per_agent_group).isSome = true)
    _ page s hs ?_
  intro s c hc
  unfold processConversation
  split
  · exact hc
  · exact groupFold_isSome c.conversation_id (get_agent_groups c.agent_name) _ hc

theorem init_group_index_complete (entries : List AgentListEntry)
    (getDetail : String → AgentDetail) (g : AgentGroup) :
    (dictLookup g.value (AgentConnection.init entries getDetail).agent_groups_ids).isSome
      = true := by
  unfold AgentConnection.init
  refine foldl_preserve
    (fun s : AgentConnectionState =>
      ∀ g : AgentGroup, (dictLookup g.value s.agent_groups_ids).isSome = true)
    _ entries _ (fun g => generate_dictionary_keys_complete g) ?_ g
  intro s a hs
  exact groupFold_isSome a.agent_id (get_agent_groups a.name) _ hs

/-- Claim C4: after the aggregator's `build` — and likewise after agent-catalog
construction — the per-group index holds an entry for each of the 8 fixed
group tags, so a group lookup for any valid tag returns a (possibly empty)
list rather than failing with a key error. -/
theorem claim_C4 (off : Int) (pages : List (List ConvSummary))
    (st : ConversationConnectionState) (entries : List AgentListEntry)
    (getDetail : String → AgentDetail) (g : AgentGroup) :
    (get_conversation_ids_from_agent_group
        (ConversationConnection.build off pages st) g).isSome = true
    ∧ (get_agent_group_ids (AgentConnection.init entries getDetail) g).isSome = true :=
  ⟨build_group_index_complete off pages st g,
    init_group_index_complete entries getDetail g⟩

theorem foldl_process_spec (off : Int) (cs : List ConvSummary) :
    ∀ st : ConversationConnectionState,
    (cs.foldl (processConversation off) st).accepted_agent_ids = st.accepted_agent_ids
    ∧ (cs.foldl (processConversation off) st).conversation_ids
        = st.conversation_ids
          ++ (cs.filter (isKept st.accepted_agent_ids)).map (fun c => c.conversation_id)
    ∧ (cs.foldl (processConversation off) st).conversations
        = (cs.filter (isKept st.accepted_agent_ids)).foldl
            (fun d c => dictSet c.conversation_id (conversation_info off c) d)
            st.conversations := by
  induction cs with
  | nil => intro st; exact ⟨rfl, by simp, rfl⟩
  | cons c cs ih =>
    intro st
    simp only [List.foldl_cons]
    obtain ⟨ha, hb, hcv⟩ := ih (processConversation off st c)
    by_cases hc : 0 < st.accepted_agent_ids.length ∧ c.agent_id ∉ st.accepted_agent_ids
    · have hk : isKept st.accepted_agent_ids c = false :=
        decide_eq_false (not_not_intro hc)
      rw [processConversation_skipped off st c hc] at ha hb hcv ⊢
      simp only [List.filter_cons, hk, Bool.false_eq_true, if_false]
      exact ⟨ha, hb, hcv⟩
    · have hk : isKept st.accepted_agent_ids c = true := decide_eq_true hc
      have hacc := processConversation_accepted_unchanged off st c
      have hids : (processConversation off st c).conversation_ids
          = st.conversation_ids ++ [c.conversation_id] := by
        rw [processConversation_kept off st c hc]
      have hconvs : (processConversation off st c).conversations
          = dictSet c.conversation_id (conversation_info off c) st.conversations := by
        rw [processConversation_kept off st c hc]
      rw [hacc] at ha hb hcv
      rw [hids] at hb
      rw [hconvs] at hcv
      refine ⟨ha, ?_, ?_⟩
      · rw [hb]
        simp only [List.filter_cons, hk, if_true, List.map_cons, List.append_assoc,
          List.singleton_append]
      · rw [hcv]
        simp only [List.filter_cons, hk, if_true, List.foldl_cons]

theorem set_accepted_agent_groups_spec (catalog : AgentConnectionState)
    (groups : List AgentGroup) : ∀ st : ConversationConnectionState,
    (set_accepted_agent_groups st catalog groups).accepted_agent_ids
      = st.accepted_agent_ids
        ++ (groups.map (fun g => (get_agent_group_ids catalog g).getD [])).flatten := by
  induction groups with
  | nil => intro st; simp [set_accepted_agent_groups]
  | cons g gs ih =>
    intro st
    simp only [set_accepted_agent_groups, List.foldl_cons] at ih ⊢
    rw [ih (set_accepted_agent_ids st ((get_agent_group_ids catalog g).getD []))]
    simp [set_accepted_agent_ids, List.append_assoc]

/-- Claim C6: during aggregation a conversation is indexed exactly when the
keep-predicate holds, the keep-predicate for a non-empty accepted set is
membership of the conversation's agent id (an empty set filters nothing), and
`set_accepted_agent_groups` expands each group through the agent catalog and
appends the expansion to — rather than replaces — the accepted ids. -/
theorem claim_C6 (off : Int) (pages : List (List ConvSummary))
    (st : ConversationConnectionState) (catalog : AgentConnectionState)
    (groups : List AgentGroup) (c : ConvSummary) :
    (ConversationConnection.build off pages st).conversation_ids
      = st.conversation_ids
        ++ (pages.flatten.filter (isKept st.accepted_agent_ids)).map
            (fun c => c.conversation_id)
    ∧ (isKept st.accepted_agent_ids c = true
        ↔ (st.accepted_agent_ids = [] ∨ c.agent_id ∈ st.accepted_agent_ids))
    ∧ (set_accepted_agent_groups st catalog groups).accepted_agent_ids
      = st.accepted_agent_ids
        ++ (groups.map (fun g => (get_agent_group_ids catalog g).getD [])).flatten := by
  refine ⟨?_, ?_, set_accepted_agent_groups_spec catalog groups st⟩
  · unfold ConversationConnection.build
    rw [← List.foldl_flatten]
    exact (foldl_process_spec off pages.flatten
      { st with conversation_ids_per_agent_group := generate_dictionary_keys }).2.1
  · unfold isKept
    simp only [decide_eq_true_eq]
    by_cases he : st.accepted_agent_ids = []
    · simp [he]
    · constructor
      · intro h
        right
        by_contra hmem
        exact h ⟨List.length_pos.mpr he, hmem⟩
      · rintro (h | h)
        · exact absurd h he
        · rintro ⟨_, hnm⟩
          exact hnm h

theorem dictPop_sublist {α β : Type} [DecidableEq α] (k : α) (d : List (α × β)) :
    (dictPop k d).Sublist d := by
  induction d with
  | nil => simp [dictPop]
  | cons hd tl ih =>
    obtain ⟨k0, v0⟩ := hd
    simp only [dictPop]
    by_cases h : k0 = k
    · rw [if_pos h]
      exact List.sublist_cons_self _ _
    · rw [if_neg h]
      exact ih.cons₂ _

theorem dictKeys_pop_nodup {α β : Type} [DecidableEq α] (k : α) (d : List (α × β))
    (h : (dictKeys d).Nodup) : (dictKeys (dictPop k d)).Nodup :=
  ((dictPop_sublist k d).map Prod.fst).nodup h

theorem dictPop_eq_filter {α β : Type} [DecidableEq α] (k : α) (d : List (α × β))
    (h : (dictKeys d).Nodup) :
    dictPop k d = d.filter (fun kv => decide (kv.1 ≠ k)) := by
  induction d with
  | nil => rfl
  | cons hd tl ih =>
    obtain ⟨k0, v0⟩ := hd
    simp only [dictKeys, List.map_cons, List.nodup_cons] at h
    simp only [dictPop, List.filter_cons]
    by_cases hk : k0 = k
    · subst hk
      rw [if_pos rfl, if_neg (by simp)]
      symm
      apply List.filter_eq_self.mpr
      intro kv hkv
      have hne : kv.1 ≠ k0 := by
        intro he
        exact h.1 (he ▸ List.mem_map_of_mem Prod.fst hkv)
      exact decide_eq_true hne
    · rw [if_neg hk, if_pos (by simp [hk]), ih h.2]

theorem dynVarStep_eq (d : List (String × PyVal)) (key : String) :
    dynVarStep d key = if isFilteredKey key then dictPop key d else d := by
  simp only [dynVarStep]
  by_cases h2 : key = "email" ∨ key = "phone" ∨ key = "secret_user_id" ∨ key = "secret_object_id"
  · rw [if_pos h2]
    rcases h2 with h | h | h | h <;> subst h
    · rw [if_neg (show ¬(pyStartsWith "email" "system" = true) from by decide),
        if_pos (show isFilteredKey "email" = true from by decide)]
    · rw [if_neg (show ¬(pyStartsWith "phone" "system" = true) from by decide),
        if_pos (show isFilteredKey "phone" = true from by decide)]
    · rw [if_neg (show ¬(pyStartsWith "secret_user_id" "system" = true) from by decide),
        if_pos (show isFilteredKey "secret_user_id" = true from by decide)]
    · rw [if_neg (show ¬(pyStartsWith "secret_object_id" "system" = true) from by decide),
        if_pos (show isFilteredKey "secret_object_id" = true from by decide)]
  · rw [if_neg h2]
    push_neg at h2
    obtain ⟨hne1, hne2, hne3, hne4⟩ := h2
    by_cases hsw : pyStartsWith key "system" = true
    · rw [if_pos hsw, if_pos (by simp [isFilteredKey, hsw])]
    · rw [if_neg hsw]
      have hsw' : pyStartsWith key "system" = false := Bool.eq_false_iff.mpr hsw
      rw [if_neg (by simp [isFilteredKey, hsw', hne1, hne2, hne3, hne4])]

theorem foldl_dynVarStep (ks : List String) :
    ∀ d : List (String × PyVal), (dictKeys d).Nodup →
    ks.foldl dynVarStep d
      = d.filter (fun kv => !(isFilteredKey kv.1 && decide (kv.1 ∈ ks))) := by
  induction ks with
  | nil =>
    intro d h
    symm
    apply List.filter_eq_self.mpr
    intro kv _
    simp
  | cons k ks ih =>
    intro d h
    simp only [List.foldl_cons]
    rw [dynVarStep_eq]
    by_cases hf : isFilteredKey k = true
    · rw [if_pos hf]
      rw [ih (dictPop k d) (dictKeys_pop_nodup k d h), dictPop_eq_filter k d h,
        List.filter_filter]
      apply List.filter_congr
      intro kv _
      by_cases hk : kv.1 = k
      · simp [hk, hf]
      · simp [hk, List.mem_cons]
    · rw [if_neg hf]
      rw [ih d h]
      apply List.filter_congr
      intro kv _
      by_cases hk : kv.1 = k
      · have hf' : isFilteredKey kv.1 = false := by rw [hk]; exact Bool.eq_false_iff.mpr hf
        simp [hf']
      · simp [hk, List.mem_cons]

/-- Claim C5: the dynamic-variable filtering removes exactly the keys starting
with the literal prefix "system" plus the four keys email, phone,
secret_user_id and secret_object_id, keeping every other entry (Python dict
keys are unique, hence the no-duplicate hypothesis).  The witness evaluates it
on the mapping named by the claim, yielding exactly the "other" entry. -/
theorem claim_C5 (raw : List (String × PyVal)) (h : (dictKeys raw).Nodup) :
    process_dynamic_variables ⟨some ⟨some raw⟩⟩
      = raw.filter (fun kv => !(isFilteredKey kv.1)) := by
  simp only [process_dynamic_variables]
  rw [foldl_dynVarStep (dictKeys raw) raw h]
  apply List.filter_congr
  intro kv hkv
  have hm : kv.1 ∈ dictKeys raw := List.mem_map_of_mem Prod.fst hkv
  simp [hm]

theorem claim_C5_witness :
    process_dynamic_variables
        ⟨some ⟨some [("system_x", PyVal.int 1), ("email", PyVal.str "a@b.com"),
          ("phone", PyVal.str "123"), ("secret_user_id", PyVal.str "u1"),
          ("other", PyVal.str "v")]⟩⟩
      = [("other", PyVal.str "v")] := by
  rw [claim_C5 [("system_x", PyVal.int 1), ("email", PyVal.str "a@b.com"),
    ("phone", PyVal.str "123"), ("secret_user_id", PyVal.str "u1"),
    ("other", PyVal.str "v")] (by decide)]
  decide

/-- What claim C9 requires of each update call the bulk updater issues for a
selected agent id. -/
def updateCallSpec (connection : AgentConnectionState)
    (variable_name variable_type variable_prompt : String)
    (call : UpdateCall) (agent_id : String) : Prop :=
  ∃ agent, get_agent connection agent_id = some agent
    ∧ call.agent_id = agent_id
    ∧ call.data_collection
        = dictSet variable_name ⟨variable_type, variable_prompt⟩
            agent.platform_settings.data_collection
    ∧ dictLookup variable_name call.data_collection
        = some ⟨variable_type, variable_prompt⟩
    ∧ ∀ k, k ≠ variable_name →
        dictLookup k call.data_collection
          = dictLookup k agent.platform_settings.data_collection

/-- Claim C9: whenever the bulk updater's `update` succeeds, it issues exactly
one update call per selected agent id, scoped to that agent, whose pushed
data-collection mapping is the agent's current schema with the entry keyed by
the configured variable name set to `{type, description}` and every other
entry carried over unchanged. -/
theorem claim_C9 (connection : AgentConnectionState) (agent_ids : List String)
    (variable_name variable_type variable_prompt : String) (calls : List UpdateCall)
    (h : DataCollectionUpdater.update connection agent_ids
          variable_name variable_type variable_prompt = some calls) :
    List.Forall₂ (updateCallSpec connection variable_name variable_type variable_prompt)
      calls agent_ids := by
  induction agent_ids generalizing calls with
  | nil =>
    simp only [DataCollectionUpdater.update, Option.some_inj] at h
    rw [← h]
    exact List.Forall₂.nil
  | cons a rest ih =>
    simp only [DataCollectionUpdater.update] at h
    cases hga : get_agent connection a with
    | none => rw [hga] at h; exact absurd h (by simp)
    | some agent =>
      rw [hga] at h
      cases hrest : DataCollectionUpdater.update connection rest
          variable_name variable_type variable_prompt with
      | none => rw [hrest] at h; exact absurd h (by simp)
      | some calls' =>
        rw [hrest] at h
        simp only [Option.some_inj] at h
        rw [← h]
        refine List.Forall₂.cons ⟨agent, hga, rfl, rfl, ?_, ?_⟩ (ih calls' hrest)
        · exact dictLookup_set_self variable_name
            (⟨variable_type, variable_prompt⟩ : JsonSchemaProperty) _
        · intro k hk
          exact dictLookup_set_ne variable_name k
            (⟨variable_type, variable_prompt⟩ : JsonSchemaProperty) _ hk

/-- A one-agent catalog used to witness claim C9. -/
def c9Agent : AgentDetail :=
  { agent_id := "a1", name := "Elena",
    platform_settings := { data_collection := [("old_var", ⟨"string", "old prompt"⟩)] } }

def c9Connection : AgentConnectionState :=
  { agents := [("a1", c9Agent)], agents_ids := ["a1"], agent_groups_ids := [] }

def c9Calls : List UpdateCall :=
  [{ agent_id := "a1",
     data_collection := [("old_var", ⟨"string", "old prompt"⟩),
                         ("customer_feedback", ⟨"string", "Feedback"⟩)] }]

theorem claim_C9_witness :
    List.Forall₂ (updateCallSpec c9Connection "customer_feedback" "string" "Feedback")
      c9Calls ["a1"] :=
  claim_C9 c9Connection ["a1"] "customer_feedback" "string" "Feedback" c9Calls (by decide)

/-- Claim C2: a display name that case-insensitively contains "elena" and
"banner" but not "affa" (hence not "noaffa") is classified as exactly
`[ELENA, ELENA_BANNER]`; and within the ELENA family the AFFA/NOAFFA/BANNER
sub-tags are additive, with ELENA_AFFA present exactly when the name contains
"affa" and not "noaffa". -/
theorem claim_C2 (name : String) :
    (pyIn "elena" (pyLower name) = true → pyIn "banner" (pyLower name) = true →
      pyIn "affa" (pyLower name) = false →
      get_agent_groups name = [AgentGroup.ELENA, AgentGroup.ELENA_BANNER])
    ∧ (pyIn "elena" (pyLower name) = true →
        ((AgentGroup.ELENA_AFFA ∈ get_agent_groups name
            ↔ (pyIn "affa" (pyLower name) = true ∧ pyIn "noaffa" (pyLower name) = false))
        ∧ (AgentGroup.ELENA_NOAFFA ∈ get_agent_groups name
            ↔ pyIn "noaffa" (pyLower name) = true)
        ∧ (AgentGroup.ELENA_BANNER ∈ get_agent_groups name
            ↔ pyIn "banner" (pyLower name) = true))) := by
  constructor
  · intro he hb ha
    have hna : pyIn "noaffa" (pyLower name) = false := by
      cases hn : pyIn "noaffa" (pyLower name) with
      | false => rfl
      | true => rw [pyIn_affa_of_noaffa _ hn] at ha; exact ha
    simp [get_agent_groups, he, hb, ha, hna]
  · intro he
    cases ha : pyIn "affa" (pyLower name) <;>
      cases hn : pyIn "noaffa" (pyLower name) <;>
      cases hb : pyIn "banner" (pyLower name) <;>
      simp [get_agent_groups, he, ha, hn, hb]

theorem claim_C2_witness :
    get_agent_groups "Elena Banner 2" = [AgentGroup.ELENA, AgentGroup.ELENA_BANNER]
    ∧ (AgentGroup.ELENA_AFFA ∈ get_agent_groups "Elena Banner 2"
        ↔ (pyIn "affa" (pyLower "Elena Banner 2") = true
            ∧ pyIn "noaffa" (pyLower "Elena Banner 2") = false)) :=
  ⟨(claim_C2 "Elena Banner 2").1 (by decide) (by decide) (by decide),
    ((claim_C2 "Elena Banner 2").2 (by decide)).1⟩

/-- Claim C7: the classifier is a total function that always returns a
non-empty tag list, and a name containing none of the recognized substrings
(case-insensitively "elena", "maría"/"maria", "coach", "artesan") is
classified as exactly `[OTHER]`. -/
theorem claim_C7 (name : String) :
    get_agent_groups name ≠ []
    ∧ ((pyIn "elena" (pyLower name) = false ∧ pyIn "maría" (pyLower name) = false
        ∧ pyIn "maria" (pyLower name) = false ∧ pyIn "coach" (pyLower name) = false
        ∧ pyIn "artesan" (pyLower name) = false)
        → get_agent_groups name = [AgentGroup.OTHER]) := by
  constructor
  · simp only [get_agent_groups]
    split_ifs <;> simp
  · rintro ⟨he, hm1, hm2, hc, ha⟩
    simp [get_agent_groups, he, hm1, hm2, hc, ha]

theorem claim_C7_witness :
    get_agent_groups "Agent 47" ≠ []
    ∧ get_agent_groups "Agent 47" = [AgentGroup.OTHER] :=
  ⟨(claim_C7 "Agent 47").1,
    (claim_C7 "Agent 47").2 ⟨by decide, by decide, by decide, by decide, by decide⟩⟩

theorem claim_C10_witness :
    dictLookup "conv1"
        (processConversation 0 ⟨[], [], [], [], []⟩
          ⟨"conv1", "agentA", "Elena", 100, 125, "done", "success", "inbound"⟩).conversations
      = some (conversation_info 0
          ⟨"conv1", "agentA", "Elena", 100, 125, "done", "success", "inbound"⟩)
    ∧ (conversation_info 0
          ⟨"conv1", "agentA", "Elena", 100, 125, "done", "success", "inbound"⟩).call_duration_timestamp
      = unix_to_time 0 125
    ∧ unix_to_time 0 125 = "00:02:05"
    ∧ seconds_to_timestamp 125 = "02:05"
    ∧ ("00:02:05" : String) ≠ "02:05" :=
  claim_C10 0 ⟨[], [], [], [], []⟩
    ⟨"conv1", "agentA", "Elena", 100, 125, "done", "success", "inbound"⟩
    (by decide)

end EL
